import Mathlib

/-!
# BioSim — shallow embedding and verification

A shallow embedding of the BioSim repository (a browser UI around a
generative-AI service: plan generation, per-step image/video visuals,
image editing, step navigation, share links), together with theorems
settling the specification claims.

The embedding translates the React state and handlers of `App`
(`src/services/geminiService.ts`, second part of the file) and the share
encoding of `SimulationViewer.handleShare` (`src/unnamed/part_000`) into
pure state-transition functions.  Network calls are modelled by passing
the call's outcome as an explicit parameter; each async handler is split
into its synchronous prefix (the "pending" phase, everything executed
before the first `await`) and the full handler (pending phase plus the
settle/finally code run once the outcome is available).
-/

namespace BioSim

/-- The `'image' | 'video'` discriminator of `SimulationStep.type` and
`VisualContent.type` (`src/unnamed/part_001`). -/
inductive VisualKind
  | image
  | video
deriving DecidableEq

/-- `SimulationStep` from `src/unnamed/part_001`. -/
structure SimulationStep where
  title : String
  description : String
  prompt : String
  type : VisualKind
deriving DecidableEq

/-- `VideoStyle` from `src/unnamed/part_001`. -/
inductive VideoStyle
  | animation
  | realistic
  | documentary
deriving DecidableEq

/-- `VisualContent` from `App`: `{ type, data, mimeType? }`, where `data` is a
data URI for images and an object URL for videos. -/
structure VisualContent where
  type : VisualKind
  data : String
  mimeType : Option String
deriving DecidableEq

/-- `LoadingState` from `App`: `{ plan: boolean, visual: boolean }`. -/
structure LoadingState where
  plan : Bool
  visual : Bool
deriving DecidableEq

/-- The React state of `App`: `topic`, `simulationPlan`, `currentStepIndex`,
`visualContent`, `loading`, `videoStatus`, `error`. -/
structure AppState where
  topic : String
  simulationPlan : List SimulationStep
  currentStepIndex : Nat
  visualContent : Option VisualContent
  loading : LoadingState
  videoStatus : String
  error : Option String
deriving DecidableEq

/-- The initial `useState` values of `App`. -/
def initialState : AppState :=
  { topic := ""
    simulationPlan := []
    currentStepIndex := 0
    visualContent := none
    loading := { plan := false, visual := false }
    videoStatus := ""
    error := none }

/-- Reading the current step, `simulationPlan[currentStepIndex]`; `none`
models JavaScript's `undefined` for an out-of-range index. -/
def currentStep (s : AppState) : Option SimulationStep :=
  s.simulationPlan[s.currentStepIndex]?

/-- `goToStep` from `App`:
`if (index >= 0 && index < simulationPlan.length) setCurrentStepIndex(index)`.
The index is an `Int` because the callers (`Previous`/`Next` buttons) pass
`currentStepIndex ± 1`, which can be negative in principle. -/
def goToStep (s : AppState) (index : Int) : AppState :=
  if 0 ≤ index ∧ index < (s.simulationPlan.length : Int) then
    { s with currentStepIndex := index.toNat }
  else
    s

/-- Outcome of `generateImage` / `editImage`: the `{ base64, mimeType }`
record extracted from the response's inline data. -/
structure ImageResult where
  base64 : String
  mimeType : String
deriving DecidableEq

/-- The data-URI assembly in `App`:
``` `data:${mimeType};base64,${base64}` ```. -/
def imageDataUrl (r : ImageResult) : String :=
  "data:" ++ r.mimeType ++ ";base64," ++ r.base64

/-- Model of the service function `generateSimulationPlan`
(`src/services/geminiService.ts`): the response text is modelled by its
parse outcome (`none` when `JSON.parse` throws).  Parse failure is
rethrown as the fixed format-error message; otherwise the parsed array is
returned unchanged.  Note that the function itself performs no emptiness
check on the parsed array. -/
def generateSimulationPlan (parsed : Option (List SimulationStep)) :
    Except String (List SimulationStep) :=
  match parsed with
  | some steps => Except.ok steps
  | none => Except.error "The AI returned an invalid lesson plan format. Please try again."

/-- `Except.isError`-style discriminator (kept local for transparency). -/
def exceptFailed {ε α : Type} : Except ε α → Bool
  | Except.error _ => true
  | Except.ok _ => false

/-- The synchronous prefix of `handleTopicSubmit`, run before
`generateSimulationPlan` is awaited: clears the session and raises the
plan-loading flag. -/
def handleTopicSubmitPending (s : AppState) (newTopic : String) : AppState :=
  { s with
    topic := newTopic
    simulationPlan := []
    currentStepIndex := 0
    visualContent := none
    error := none
    loading := { plan := true, visual := false } }

/-- The settle part of `handleTopicSubmit`: the `try/catch/finally` around
the awaited plan.  A non-empty plan is stored; an empty one sets the
user-facing error; a thrown error message is stored as the error.  The
`finally` clears both loading flags. -/
def handleTopicSubmitSettle (s : AppState)
    (planResult : Except String (List SimulationStep)) : AppState :=
  let s' :=
    match planResult with
    | Except.ok plan =>
        if plan.length > 0 then
          { s with simulationPlan := plan }
        else
          let msg := "Could not generate a simulation plan for this topic. Please try another one."
          { s with error := some msg }
    | Except.error msg => { s with error := some msg }
  { s' with loading := { plan := false, visual := false } }

/-- The whole of `handleTopicSubmit`, with the awaited
`generateSimulationPlan` outcome passed in. -/
def handleTopicSubmit (s : AppState) (newTopic : String)
    (planResult : Except String (List SimulationStep)) : AppState :=
  handleTopicSubmitSettle (handleTopicSubmitPending s newTopic) planResult

/-- The synchronous prefix of `generateVisualForCurrentStep`: after the two
guards (`simulationPlan.length === 0`, `!currentStep`), raises the visual
loading flag and clears the previous visual, error and video status. -/
def generateVisualPending (s : AppState) : AppState :=
  if s.simulationPlan.length = 0 then s
  else
    match s.simulationPlan[s.currentStepIndex]? with
    | none => s
    | some _ =>
        { s with
          loading := { s.loading with visual := true }
          visualContent := none
          error := none
          videoStatus := "" }

/-- The whole of `generateVisualForCurrentStep`, with the outcomes of the
image and video service calls passed in (`imageResult` is consulted for an
image-kind step, `videoResult` — the object URL of the downloaded video —
for a video-kind step).  The `finally` lowers the visual loading flag and
clears the video status. -/
def generateVisualForCurrentStep (s : AppState)
    (imageResult : Except String ImageResult)
    (videoResult : Except String String) : AppState :=
  if s.simulationPlan.length = 0 then s
  else
    match s.simulationPlan[s.currentStepIndex]? with
    | none => s
    | some step =>
        let sp := generateVisualPending s
        let ss :=
          match step.type with
          | VisualKind.image =>
              match imageResult with
              | Except.ok r =>
                  let nv : VisualContent :=
                    { type := VisualKind.image, data := imageDataUrl r, mimeType := some r.mimeType }
                  { sp with visualContent := some nv }
              | Except.error m => { sp with error := some m }
          | VisualKind.video =>
              match videoResult with
              | Except.ok url =>
                  let nv : VisualContent :=
                    { type := VisualKind.video, data := url, mimeType := none }
                  { sp with visualContent := some nv }
              | Except.error m => { sp with error := some m }
        { ss with loading := { ss.loading with visual := false }, videoStatus := "" }

/-- JavaScript truthiness of `visualContent.mimeType` (`undefined` and the
empty string are falsy). -/
def mimeTruthy : Option String → Bool
  | some m => m ≠ ""
  | none => false

/-- The guard of `handleImageEdit`:
`!visualContent || visualContent.type !== 'image' || !visualContent.mimeType`
(negated).  Note it does not consult `loading.visual`. -/
def canEdit (s : AppState) : Bool :=
  match s.visualContent with
  | some v => v.type == VisualKind.image && mimeTruthy v.mimeType
  | none => false

/-- The synchronous prefix of `handleImageEdit`: when the guard passes,
raises the visual loading flag and clears the error — and, unlike
`generateVisualForCurrentStep`, does **not** clear `visualContent` (the
current image is the edit source). -/
def handleImageEditPending (s : AppState) : AppState :=
  if canEdit s then
    { s with loading := { s.loading with visual := true }, error := none }
  else s

/-- The whole of `handleImageEdit`, with the awaited `editImage` outcome
passed in.  The second component records whether a network request was
issued at all (`false` when the guard made the handler return early). -/
def handleImageEdit (s : AppState) (editResult : Except String ImageResult) :
    AppState × Bool :=
  if canEdit s then
    let sp := handleImageEditPending s
    let ss :=
      match editResult with
      | Except.ok r =>
          let nv : VisualContent :=
            { type := VisualKind.image, data := imageDataUrl r, mimeType := some r.mimeType }
          { sp with visualContent := some nv }
      | Except.error m => { sp with error := some m }
    ({ ss with loading := { ss.loading with visual := false } }, true)
  else (s, false)

/-- The index/plan invariant of the spec: the current index is within
`[0, length-1]` of the active plan, or the plan is empty and the index
is `0`. -/
def IndexInv (s : AppState) : Prop :=
  (s.simulationPlan = [] ∧ s.currentStepIndex = 0) ∨
    s.currentStepIndex < s.simulationPlan.length

/-- The fixed ordered progress-message list of `generateVideo`
(`videoGenerationMessages` in `src/services/geminiService.ts`). -/
def videoGenerationMessages : List String :=
  [ "Initializing the virtual microscope..."
  , "Sequencing bio-data for simulation..."
  , "Assembling cellular structures..."
  , "Simulating biological processes..."
  , "Rendering high-fidelity animation..."
  , "This can take a few minutes, the result will be worth it!"
  , "Finalizing video output..."
  , "Almost there..." ]

/-- The polling loop of `generateVideo`: `dones` is the sequence of
successive values of `operation.done` (the first from `generateVideos`,
the rest from each `getVideosOperation`), `i` the current `messageIndex`.
While a check reports not-done, one message of the cyclic list is passed
to `onProgress`; at the first done check the loop exits and (on the
successful-download path) `onProgress("Fetching generated video...")`
runs.  An exhausted `dones` list models an observation horizon on the
otherwise unbounded loop. -/
def videoPollTrace : Nat → List Bool → List String
  | _, [] => []
  | i, done :: rest =>
      if done then
        ["Fetching generated video..."]
      else
        videoGenerationMessages.getD (i % videoGenerationMessages.length) "" ::
          videoPollTrace (i + 1) rest

/-- Every string passed to `onProgress` during a `generateVideo` run with
completion-check sequence `dones`: `videoGenerationMessages[0]` is emitted
unconditionally before the job is even submitted, then `videoPollTrace`
starting from `messageIndex = 1`. -/
def generateVideoProgress (dones : List Bool) : List String :=
  videoGenerationMessages.getD 0 "" :: videoPollTrace 1 dones

section Examples

/-- A concrete image-kind step, for witnesses. -/
def exStep : SimulationStep :=
  { title := "The Four Chambers"
    description := "The heart has four chambers."
    prompt := "A labeled diagram of the four chambers."
    type := VisualKind.image }

/-- A concrete image visual, for witnesses. -/
def exImageVisual : VisualContent :=
  { type := VisualKind.image
    data := "data:image/png;base64,AAAA"
    mimeType := some "image/png" }

/-- A concrete state holding an editable image visual together with a
leftover error message from an earlier failure. -/
def exEditable : AppState :=
  { topic := "heart"
    simulationPlan := [exStep]
    currentStepIndex := 0
    visualContent := some exImageVisual
    loading := { plan := false, visual := false }
    videoStatus := ""
    error := some "previous error" }

/-- `exEditable` while a visual request is in flight. -/
def exPendingEdit : AppState :=
  { exEditable with loading := { plan := false, visual := true } }

/-- A concrete `editImage` success payload. -/
def exEditResult : ImageResult := { base64 := "BBBB", mimeType := "image/png" }

/-- A concrete video-kind step. -/
def exVideoStep : SimulationStep :=
  { title := "Sunlight Absorption"
    description := "Chlorophyll absorbs sunlight."
    prompt := "An animation of sunlight hitting a chloroplast."
    type := VisualKind.video }

/-- A concrete state holding a video visual together with a leftover
error message: no image edit is valid here, but a regenerate or step
change still triggers a visual request. -/
def exVideoState : AppState :=
  { topic := "photosynthesis"
    simulationPlan := [exVideoStep]
    currentStepIndex := 0
    visualContent := some { type := VisualKind.video, data := "blob:video-1", mimeType := none }
    loading := { plan := false, visual := false }
    videoStatus := ""
    error := some "stale error" }

end Examples

/-! ### The share-link encoding

`handleShare` (`src/unnamed/part_000`) builds the query parameter as
`btoa(encodeURIComponent(JSON.stringify({ topic, simulationPlan })))`;
`loadSimulationFromURL` (the mount effect of `App`) reverses it as
`JSON.parse(decodeURIComponent(atob(sharedData)))`.  The three layers —
JSON text, percent-encoding of UTF-8 bytes, base64 — are modelled
character-exactly below.  Strings are handled as `List Char` (Unicode
scalar values), which models well-formed JavaScript strings; the
JavaScript builtins (`JSON.stringify`/`JSON.parse` restricted to the
share payload shape, `encodeURIComponent`/`decodeURIComponent`,
`btoa`/`atob`) are modelled per the ECMA-262 / WHATWG algorithms. -/

/-- Lowercase hex digit, as emitted by `JSON.stringify` in `\u00xx`
escapes of control characters. -/
def hexDigitLower (n : Nat) : Char :=
  if n < 10 then Char.ofNat (48 + n) else Char.ofNat (87 + n)

/-- Uppercase hex digit, as emitted by `encodeURIComponent` in `%XY`
escapes. -/
def hexDigitUpper (n : Nat) : Char :=
  if n < 10 then Char.ofNat (48 + n) else Char.ofNat (55 + n)

/-- Hex digit value; both cases are accepted, as by `JSON.parse` and
`decodeURIComponent`. -/
def hexVal (c : Char) : Option Nat :=
  if 48 ≤ c.toNat ∧ c.toNat ≤ 57 then some (c.toNat - 48)
  else if 97 ≤ c.toNat ∧ c.toNat ≤ 102 then some (c.toNat - 87)
  else if 65 ≤ c.toNat ∧ c.toNat ≤ 70 then some (c.toNat - 55)
  else none

/-- `JSON.stringify` string-character escaping (ECMA-262
`QuoteJSONString`): quote and backslash escaped, the five named control
escapes, `\u00xx` with lowercase hex for the remaining control
characters, every other character literal. -/
def jsonEscapeChar (c : Char) : List Char :=
  if c = '"' then ['\\', '"']
  else if c = '\\' then ['\\', '\\']
  else if c = '\x08' then ['\\', 'b']
  else if c = '\x09' then ['\\', 't']
  else if c = '\x0a' then ['\\', 'n']
  else if c = '\x0c' then ['\\', 'f']
  else if c = '\x0d' then ['\\', 'r']
  else if c.toNat < 32 then
    ['\\', 'u', '0', '0', hexDigitLower (c.toNat / 16), hexDigitLower (c.toNat % 16)]
  else [c]

/-- A JSON string literal: quoted, characters escaped. -/
def jsonQuote (s : List Char) : List Char :=
  '"' :: (s.flatMap jsonEscapeChar ++ ['"'])

/-- The serialized form of the `type` discriminator. -/
def kindChars : VisualKind → List Char
  | VisualKind.image => ['i', 'm', 'a', 'g', 'e']
  | VisualKind.video => ['v', 'i', 'd', 'e', 'o']

/-- `{"title":` — the step object opener (step keys in declaration
order). -/
def stepTitleKey : List Char := "\x7b\"title\":".data

/-- `,"description":`. -/
def stepDescKey : List Char := ",\"description\":".data

/-- `,"prompt":`. -/
def stepPromptKey : List Char := ",\"prompt\":".data

/-- `,"type":`. -/
def stepTypeKey : List Char := ",\"type\":".data

/-- The closing brace of a JSON object. -/
def closeBraceKey : List Char := "\x7d".data

/-- `{"topic":` — the share payload opener (`{ topic, simulationPlan }`
in insertion order). -/
def shareTopicKey : List Char := "\x7b\"topic\":".data

/-- `,"simulationPlan":`. -/
def sharePlanKey : List Char := ",\"simulationPlan\":".data

/-- `JSON.stringify` of one `SimulationStep`. -/
def stringifyStep (st : SimulationStep) : List Char :=
  stepTitleKey ++ jsonQuote st.title.data ++
    stepDescKey ++ jsonQuote st.description.data ++
    stepPromptKey ++ jsonQuote st.prompt.data ++
    stepTypeKey ++ jsonQuote (kindChars st.type) ++ closeBraceKey

/-- `JSON.stringify` of the step array. -/
def stringifyPlan (plan : List SimulationStep) : List Char :=
  match plan with
  | [] => ['[', ']']
  | st :: rest =>
      '[' :: (stringifyStep st ++
        rest.flatMap (fun s2 => ',' :: stringifyStep s2) ++ [']'])

/-- `JSON.stringify({ topic, simulationPlan })` — the `jsonString` of
`handleShare`. -/
def stringifyShare (topic : String) (plan : List SimulationStep) : List Char :=
  shareTopicKey ++ jsonQuote topic.data ++
    sharePlanKey ++ stringifyPlan plan ++ closeBraceKey

/-- Parser for a fixed literal: succeeds returning the remainder exactly
when the input starts with `lit`. -/
def parseLit : List Char → List Char → Option (List Char)
  | [], input => some input
  | _ :: _, [] => none
  | l :: ls, c :: cs => if c = l then parseLit ls cs else none

/-- Parser for the body of a JSON string literal (after the opening
quote), unescaping exactly what `jsonEscapeChar` produces (plus the other
`JSON.parse` escape forms sharing those prefixes); stops at the closing
quote. -/
def parseJStr : List Char → Option (List Char × List Char)
  | [] => none
  | c :: rest =>
      if c = '"' then some ([], rest)
      else if c = '\\' then
        match rest with
        | [] => none
        | e :: rest2 =>
            if e = '"' then (parseJStr rest2).map (fun p => ('"' :: p.1, p.2))
            else if e = '\\' then (parseJStr rest2).map (fun p => ('\\' :: p.1, p.2))
            else if e = 'b' then (parseJStr rest2).map (fun p => ('\x08' :: p.1, p.2))
            else if e = 't' then (parseJStr rest2).map (fun p => ('\x09' :: p.1, p.2))
            else if e = 'n' then (parseJStr rest2).map (fun p => ('\x0a' :: p.1, p.2))
            else if e = 'f' then (parseJStr rest2).map (fun p => ('\x0c' :: p.1, p.2))
            else if e = 'r' then (parseJStr rest2).map (fun p => ('\x0d' :: p.1, p.2))
            else if e = 'u' then
              match rest2 with
              | h1 :: h2 :: h3 :: h4 :: rest3 =>
                  match hexVal h1, hexVal h2, hexVal h3, hexVal h4 with
                  | some a, some b, some x, some y =>
                      (parseJStr rest3).map
                        (fun p => (Char.ofNat (((a * 16 + b) * 16 + x) * 16 + y) :: p.1, p.2))
                  | _, _, _, _ => none
              | _ => none
            else none
      else (parseJStr rest).map (fun p => (c :: p.1, p.2))

/-- Parser for a whole JSON string literal, opening quote included. -/
def parseQStr (input : List Char) : Option (List Char × List Char) :=
  match input with
  | [] => none
  | c :: rest => if c = '"' then parseJStr rest else none

/-- Parser for the quoted `type` value. -/
def parseKind (input : List Char) : Option (VisualKind × List Char) :=
  match parseQStr input with
  | some (s, rest) =>
      if s = kindChars VisualKind.image then some (VisualKind.image, rest)
      else if s = kindChars VisualKind.video then some (VisualKind.video, rest)
      else none
  | none => none

/-- Parser for one serialized `SimulationStep`. -/
def parseStep (input : List Char) : Option (SimulationStep × List Char) :=
  (parseLit stepTitleKey input).bind fun r1 =>
  (parseQStr r1).bind fun pt =>
  (parseLit stepDescKey pt.2).bind fun r3 =>
  (parseQStr r3).bind fun pd =>
  (parseLit stepPromptKey pd.2).bind fun r5 =>
  (parseQStr r5).bind fun pp =>
  (parseLit stepTypeKey pp.2).bind fun r7 =>
  (parseKind r7).bind fun pk =>
  (parseLit closeBraceKey pk.2).map fun r9 =>
  ({ title := String.mk pt.1, description := String.mk pd.1
     prompt := String.mk pp.1, type := pk.1 }, r9)

/-- Parser for the `("," step)* "]"` tail of the step array.  `fuel`
(consumed once per comma) only bounds the iteration count; callers pass
the input length, which always suffices since every element occupies at
least one character. -/
def parseMoreSteps : Nat → List Char → Option (List SimulationStep × List Char)
  | _, [] => none
  | fuel, c :: rest =>
      if c = ']' then some ([], rest)
      else if c = ',' then
        match fuel with
        | 0 => none
        | f + 1 =>
            (parseStep rest).bind fun ps =>
            (parseMoreSteps f ps.2).map fun pm => (ps.1 :: pm.1, pm.2)
      else none

/-- Parser for the serialized step array. -/
def parseStepArray (fuel : Nat) (input : List Char) :
    Option (List SimulationStep × List Char) :=
  match input with
  | [] => none
  | c :: rest =>
      if c = '[' then
        match rest with
        | [] => none
        | d :: rest2 =>
            if d = ']' then some ([], rest2)
            else
              (parseStep rest).bind fun ps =>
              (parseMoreSteps fuel ps.2).map fun pm => (ps.1 :: pm.1, pm.2)
      else none

/-- `JSON.parse` restricted to the share payload shape produced by
`handleShare`: `{"topic":<string>,"simulationPlan":<step array>}`, with
no trailing input allowed. -/
def parseShare (input : List Char) : Option (String × List SimulationStep) :=
  (parseLit shareTopicKey input).bind fun r1 =>
  (parseQStr r1).bind fun pt =>
  (parseLit sharePlanKey pt.2).bind fun r3 =>
  (parseStepArray r3.length r3).bind fun pa =>
  (parseLit closeBraceKey pa.2).bind fun r5 =>
  if r5 = [] then some (String.mk pt.1, pa.1) else none

/-- The extra unreserved marks of `encodeURIComponent`
(`- _ . ! ~ * ' ( )`). -/
def uriMarks : List Char := ['-', '_', '.', '!', '~', '*', '\'', '(', ')']

/-- The character set `encodeURIComponent` leaves unescaped:
ASCII letters, digits, and the marks. -/
def uriUnreserved (c : Char) : Bool :=
  decide (65 ≤ c.toNat ∧ c.toNat ≤ 90) ||
    decide (97 ≤ c.toNat ∧ c.toNat ≤ 122) ||
    decide (48 ≤ c.toNat ∧ c.toNat ≤ 57) ||
    uriMarks.contains c

/-- UTF-8 encoding of one Unicode scalar value, as byte values.
(For astral characters this is what `encodeURIComponent` produces from a
well-formed surrogate pair.) -/
def utf8Bytes (c : Char) : List Nat :=
  if c.toNat < 128 then [c.toNat]
  else if c.toNat < 2048 then [192 + c.toNat / 64, 128 + c.toNat % 64]
  else if c.toNat < 65536 then
    [224 + c.toNat / 4096, 128 + c.toNat / 64 % 64, 128 + c.toNat % 64]
  else
    [240 + c.toNat / 262144, 128 + c.toNat / 4096 % 64, 128 + c.toNat / 64 % 64,
      128 + c.toNat % 64]

/-- `%XY` percent-escape of one byte, uppercase hex. -/
def pctByte (b : Nat) : List Char := ['%', hexDigitUpper (b / 16), hexDigitUpper (b % 16)]

/-- `encodeURIComponent`: unreserved characters pass through, every other
character is UTF-8 encoded and each byte percent-escaped. -/
def encodeURIComponent (s : List Char) : List Char :=
  s.flatMap fun c => if uriUnreserved c then [c] else (utf8Bytes c).flatMap pctByte

/-- Intermediate token stream of `decodeURIComponent`: a literal
character, or a byte from a `%XY` escape. -/
inductive Tok
  | chr (c : Char)
  | byte (b : Nat)
deriving DecidableEq

/-- The token run contributed by one character of `encodeURIComponent`
input: itself when unreserved, otherwise its UTF-8 bytes. -/
def tokOf (c : Char) : List Tok :=
  if uriUnreserved c then [Tok.chr c] else (utf8Bytes c).map Tok.byte

/-- First phase of `decodeURIComponent`: `%XY` triples become byte
tokens (failing on a truncated or non-hex escape), everything else
passes through as a character token. -/
def pctTokens : List Char → Option (List Tok)
  | [] => some []
  | c :: rest =>
      if c = '%' then
        match rest with
        | hi :: lo :: rest2 =>
            match hexVal hi, hexVal lo with
            | some a, some b => (pctTokens rest2).map (fun ts => Tok.byte (a * 16 + b) :: ts)
            | _, _ => none
        | _ => none
      else (pctTokens rest).map (fun ts => Tok.chr c :: ts)

/-- A continuation byte of a UTF-8 sequence: a byte token in
`[0x80, 0xC0)`, yielding its six payload bits and the remaining
tokens. -/
def contVal : List Tok → Option (Nat × List Tok)
  | Tok.byte b :: rest => if 128 ≤ b ∧ b < 192 then some (b - 128, rest) else none
  | _ => none

/-- One step of the second phase of `decodeURIComponent`: a character
token passes through; a lead byte token consumes its continuation bytes
and reassembles the scalar value. -/
def utf8DecodeOne : List Tok → Option (Char × List Tok)
  | [] => none
  | Tok.chr c :: rest => some (c, rest)
  | Tok.byte b :: rest =>
      if b < 128 then some (Char.ofNat b, rest)
      else if b < 192 then none
      else if b < 224 then
        (contVal rest).bind fun p2 =>
        some (Char.ofNat ((b - 192) * 64 + p2.1), p2.2)
      else if b < 240 then
        (contVal rest).bind fun p2 =>
        (contVal p2.2).bind fun p3 =>
        some (Char.ofNat ((b - 224) * 4096 + p2.1 * 64 + p3.1), p3.2)
      else if b < 248 then
        (contVal rest).bind fun p2 =>
        (contVal p2.2).bind fun p3 =>
        (contVal p3.2).bind fun p4 =>
        some (Char.ofNat ((b - 240) * 262144 + p2.1 * 4096 + p3.1 * 64 + p4.1), p4.2)
      else none

/-- Driver of the second phase: decode characters until the stream is
exhausted.  `fuel` (consumed once per decoded character) only bounds the
iteration count; `toksDecode` passes the token count, which always
suffices since every character consumes at least one token. -/
def toksDecodeAux : Nat → List Tok → Option (List Char)
  | _, [] => some []
  | 0, _ :: _ => none
  | f + 1, t :: rest =>
      (utf8DecodeOne (t :: rest)).bind fun p =>
      (toksDecodeAux f p.2).map fun l => p.1 :: l

/-- Second phase of `decodeURIComponent`: UTF-8 decoding of the token
stream. -/
def toksDecode (ts : List Tok) : Option (List Char) :=
  toksDecodeAux ts.length ts

/-- `decodeURIComponent`: percent-unescape, then UTF-8 decode
(`none` models the `URIError` throw on malformed input). -/
def decodeURIComponent (s : List Char) : Option (List Char) :=
  (pctTokens s).bind toksDecode

/-- The base64 alphabet. -/
def b64Table : List Char :=
  "ABCDEFGHIJKLMNOPQRSTUVWXYZabcdefghijklmnopqrstuvwxyz0123456789+/".data

/-- The base64 digit for a sextet value. -/
def b64Char (n : Nat) : Char := b64Table.getD n 'A'

/-- The sextet value of a base64 digit (none for `=` or a foreign
character). -/
def b64Val (c : Char) : Option Nat := b64Table.indexOf? c

/-- Base64 encoding of a byte sequence, with `=` padding, as performed by
`btoa` on the code units of a latin1 string. -/
def b64encode : List Nat → List Char
  | [] => []
  | [b1] => [b64Char (b1 / 4), b64Char (b1 % 4 * 16), '=', '=']
  | [b1, b2] => [b64Char (b1 / 4), b64Char (b1 % 4 * 16 + b2 / 16), b64Char (b2 % 16 * 4), '=']
  | b1 :: b2 :: b3 :: rest =>
      b64Char (b1 / 4) :: b64Char (b1 % 4 * 16 + b2 / 16) ::
        b64Char (b2 % 16 * 4 + b3 / 64) :: b64Char (b3 % 64) :: b64encode rest

/-- Base64 decoding back to bytes, as performed by `atob`: four digits
to three bytes per block, the final block possibly `=`-padded; anything
else (wrong length, `=` in mid-stream, foreign characters) fails. -/
def b64decode : List Char → Option (List Nat)
  | [] => some []
  | c1 :: c2 :: c3 :: c4 :: rest =>
      if c3 = '=' ∧ c4 = '=' ∧ rest = [] then
        (b64Val c1).bind fun v1 =>
        (b64Val c2).map fun v2 => [v1 * 4 + v2 / 16]
      else if c4 = '=' ∧ rest = [] then
        (b64Val c1).bind fun v1 =>
        (b64Val c2).bind fun v2 =>
        (b64Val c3).map fun v3 => [v1 * 4 + v2 / 16, v2 % 16 * 16 + v3 / 4]
      else
        (b64Val c1).bind fun v1 =>
        (b64Val c2).bind fun v2 =>
        (b64Val c3).bind fun v3 =>
        (b64Val c4).bind fun v4 =>
        (b64decode rest).map fun bs =>
          (v1 * 4 + v2 / 16) :: (v2 % 16 * 16 + v3 / 4) :: (v3 % 4 * 64 + v4) :: bs
  | _ => none

/-- `btoa`: base64 of the input's code units; throws (modelled `none`) on
any character above `U+00FF`. -/
def btoa (s : List Char) : Option (List Char) :=
  if s.all (fun c => c.toNat < 256) then some (b64encode (s.map Char.toNat)) else none

/-- `atob`: base64 decoding to a latin1 string. -/
def atob (s : List Char) : Option (List Char) :=
  (b64decode s).map (fun bs => bs.map Char.ofNat)

/-- The share query parameter built by `handleShare`:
`btoa(encodeURIComponent(JSON.stringify({ topic, simulationPlan })))`. -/
def handleShareParam (topic : String) (plan : List SimulationStep) : Option (List Char) :=
  btoa (encodeURIComponent (stringifyShare topic plan))

/-- The decoding side of `loadSimulationFromURL`:
`JSON.parse(decodeURIComponent(atob(sharedData)))`, restricted to the
share payload shape; `none` models any exception caught by its
`try/catch`. -/
def decodeShare (s : List Char) : Option (String × List SimulationStep) :=
  (atob s).bind fun uri =>
  (decodeURIComponent uri).bind fun json =>
  parseShare json

/-- `loadSimulationFromURL` as a state transition.  `param` is
`params.get('simulation')` (`none` when the parameter is absent, and the
empty string when present without a value, which is falsy in the
`if (sharedData)` guard).  The Boolean records whether
`history.replaceState` ran, i.e. whether the parameter was removed from
the URL.  The decoded state is applied only when `data.topic` is truthy
and the plan array is non-empty; every failure is silently swallowed. -/
def loadSimulationFromURL (s : AppState) (param : Option String) : AppState × Bool :=
  match param with
  | none => (s, false)
  | some v =>
      if v = "" then (s, false)
      else
        match decodeShare v.data with
        | some (t, plan) =>
            if t ≠ "" ∧ plan.length > 0 then
              ({ s with topic := t, simulationPlan := plan }, true)
            else (s, true)
        | none => (s, true)

end BioSim

namespace BioSim

/-! ## Claim C1

Entering Pending on a visual-generation trigger and what it clears. -/

/-- Claim C1 as stated is false for the edit trigger: in the state
`exEditable` (a valid editable image with a leftover error), the edit
handler's Pending entry raises the visual loading flag but does **not**
clear the previously held `VisualContent` — `handleImageEdit` keeps the
current image (its edit source) on screen while Pending. -/
theorem C1_edit_pending_keeps_visual :
    canEdit exEditable = true ∧
    (handleImageEditPending exEditable).loading.visual = true ∧
    (handleImageEditPending exEditable).visualContent ≠ none := by
  refine ⟨rfl, rfl, ?_⟩
  decide

/-- Claim C1, amended: each half under its own trigger guard.  For the
plan-load, step-change and regenerate triggers (all funnelled through
`generateVisualForCurrentStep`), entering Pending clears the previous
`VisualContent` and the previous error before any new data arrives — for
every state with a current step in range, whatever kind of visual (or
none) and whatever error it holds.  For the edit trigger (valid exactly
when the edit guard passes), entering Pending clears the previous error
but retains the current `VisualContent` as the edit source. -/
theorem C1_pending_clears (s : AppState) :
    (s.currentStepIndex < s.simulationPlan.length →
      (generateVisualPending s).visualContent = none ∧
      (generateVisualPending s).error = none ∧
      (generateVisualPending s).loading.visual = true) ∧
    (canEdit s = true →
      (handleImageEditPending s).error = none ∧
      (handleImageEditPending s).visualContent = s.visualContent ∧
      (handleImageEditPending s).loading.visual = true) := by
  constructor
  · intro hstep
    have hne : ¬ s.simulationPlan.length = 0 := by omega
    have hget : s.simulationPlan[s.currentStepIndex]? =
        some (s.simulationPlan.get ⟨s.currentStepIndex, hstep⟩) := by
      simp [List.getElem?_eq_getElem hstep]
    simp [generateVisualPending, hne, hget]
  · intro hedit
    simp [handleImageEditPending, hedit]

/-- Witness for `C1_pending_clears`: the generation half at
`exVideoState` (a video visual with a stale error — no image edit is
valid there) and the edit half at `exEditable`. -/
theorem C1_pending_clears_witness :
    ((generateVisualPending exVideoState).visualContent = none ∧
     (generateVisualPending exVideoState).error = none ∧
     (generateVisualPending exVideoState).loading.visual = true) ∧
    ((handleImageEditPending exEditable).error = none ∧
     (handleImageEditPending exEditable).visualContent = exEditable.visualContent ∧
     (handleImageEditPending exEditable).loading.visual = true) :=
  ⟨(C1_pending_clears exVideoState).1 (by decide),
   (C1_pending_clears exEditable).2 (by decide)⟩

/-! ## Claim C3

`generateSimulationPlan` failure modes and what the caller surfaces. -/

/-- Claim C3 as stated is false: a response that parses to the empty
array does **not** make `generateSimulationPlan` fail with the
plan-format error — the function returns the empty array successfully
(the emptiness check lives in the caller `handleTopicSubmit`). -/
theorem C3_empty_array_is_ok :
    generateSimulationPlan (some []) = Except.ok [] ∧
    exceptFailed (generateSimulationPlan (some ([] : List SimulationStep))) = false := by
  exact ⟨rfl, rfl⟩

/-- Claim C3, amended: `generateSimulationPlan` fails with the
plan-format error exactly when the response text does not parse; an empty
parsed array is returned successfully, and the caller `handleTopicSubmit`
then surfaces its own user-visible error.  In both failure cases
(unparsable response or empty array) the resulting state carries an error
message and the stored plan stays empty. -/
theorem C3_plan_failure_surfaced (parsed : Option (List SimulationStep))
    (s : AppState) (t : String)
    (h : parsed = none ∨ parsed = some []) :
    (∀ q : Option (List SimulationStep),
        exceptFailed (generateSimulationPlan q) = true ↔ q = none) ∧
    (handleTopicSubmit s t (generateSimulationPlan parsed)).error ≠ none ∧
    (handleTopicSubmit s t (generateSimulationPlan parsed)).simulationPlan = [] := by
  refine ⟨?_, ?_⟩
  · intro q
    cases q <;> simp [generateSimulationPlan, exceptFailed]
  · rcases h with h | h <;> subst h <;>
      simp [handleTopicSubmit, handleTopicSubmitPending, handleTopicSubmitSettle,
        generateSimulationPlan]

/-- Witness for `C3_plan_failure_surfaced` at the empty parsed array. -/
theorem C3_plan_failure_surfaced_witness :
    (∀ q : Option (List SimulationStep),
        exceptFailed (generateSimulationPlan q) = true ↔ q = none) ∧
    (handleTopicSubmit initialState "Photosynthesis"
        (generateSimulationPlan (some []))).error ≠ none ∧
    (handleTopicSubmit initialState "Photosynthesis"
        (generateSimulationPlan (some []))).simulationPlan = [] :=
  C3_plan_failure_surfaced (some []) initialState "Photosynthesis" (Or.inr rfl)

/-! ## Claim C4

`goToStep` bounds behaviour. -/

/-- Claim C4: for `0 ≤ i < plan.length`, `goToStep i` sets the current
index to `i`, so the current step read afterwards is `plan[i]`; for an
index outside `[0, plan.length)` the state is returned unchanged. -/
theorem C4_goToStep_bounds (s : AppState) (i : Int) :
    (∀ h : i.toNat < s.simulationPlan.length, 0 ≤ i →
        (goToStep s i).currentStepIndex = i.toNat ∧
        currentStep (goToStep s i) = some (s.simulationPlan.get ⟨i.toNat, h⟩)) ∧
    (i < 0 ∨ (s.simulationPlan.length : Int) ≤ i → goToStep s i = s) := by
  constructor
  · intro h h0
    have hi : i < (s.simulationPlan.length : Int) := by omega
    have hguard : (0 ≤ i ∧ i < (s.simulationPlan.length : Int)) := ⟨h0, hi⟩
    simp only [goToStep, if_pos hguard]
    refine ⟨by simp, ?_⟩
    simp [currentStep, List.getElem?_eq_getElem h]
  · intro h
    have hguard : ¬ (0 ≤ i ∧ i < (s.simulationPlan.length : Int)) := by omega
    simp only [goToStep, if_neg hguard]

/-- Witness for `C4_goToStep_bounds`: on the one-step plan of
`exEditable`, `goToStep 0` lands on `exStep` and `goToStep 5` is a
no-op. -/
theorem C4_goToStep_bounds_witness :
    (goToStep exEditable 0).currentStepIndex = 0 ∧
    currentStep (goToStep exEditable 0) = some exStep ∧
    goToStep exEditable 5 = exEditable := by
  refine ⟨((C4_goToStep_bounds exEditable 0).1 (by decide) (by decide)).1,
    ((C4_goToStep_bounds exEditable 0).1 (by decide) (by decide)).2,
    (C4_goToStep_bounds exEditable 5).2 (by right; decide)⟩

/-! ## Claim C5

Topic submission resets the session. -/

/-- Claim C5: submitting a new topic first clears the session (plan
emptied, index reset to 0, previous visual and error cleared — all before
the plan request is awaited, hence before the new plan's first visual
request can begin), and once a non-empty plan arrives the final state
holds exactly the fetched plan at index 0 with visual and error still
clear. -/
theorem C5_topic_submit_resets (s : AppState) (t : String)
    (plan : List SimulationStep) (h : plan ≠ []) :
    ((handleTopicSubmitPending s t).simulationPlan = [] ∧
     (handleTopicSubmitPending s t).currentStepIndex = 0 ∧
     (handleTopicSubmitPending s t).visualContent = none ∧
     (handleTopicSubmitPending s t).error = none) ∧
    ((handleTopicSubmit s t (Except.ok plan)).simulationPlan = plan ∧
     (handleTopicSubmit s t (Except.ok plan)).currentStepIndex = 0 ∧
     (handleTopicSubmit s t (Except.ok plan)).visualContent = none ∧
     (handleTopicSubmit s t (Except.ok plan)).error = none ∧
     (handleTopicSubmit s t (Except.ok plan)).topic = t) := by
  have hl : plan.length > 0 := by
    cases plan with
    | nil => exact absurd rfl h
    | cons a l => simp
  simp [handleTopicSubmitPending, handleTopicSubmit, handleTopicSubmitSettle, hl]

/-- Witness for `C5_topic_submit_resets` at a concrete prior session. -/
theorem C5_topic_submit_resets_witness :
    ((handleTopicSubmitPending exPendingEdit "Photosynthesis").simulationPlan = [] ∧
     (handleTopicSubmitPending exPendingEdit "Photosynthesis").currentStepIndex = 0 ∧
     (handleTopicSubmitPending exPendingEdit "Photosynthesis").visualContent = none ∧
     (handleTopicSubmitPending exPendingEdit "Photosynthesis").error = none) ∧
    ((handleTopicSubmit exPendingEdit "Photosynthesis" (Except.ok [exStep])).simulationPlan = [exStep] ∧
     (handleTopicSubmit exPendingEdit "Photosynthesis" (Except.ok [exStep])).currentStepIndex = 0 ∧
     (handleTopicSubmit exPendingEdit "Photosynthesis" (Except.ok [exStep])).visualContent = none ∧
     (handleTopicSubmit exPendingEdit "Photosynthesis" (Except.ok [exStep])).error = none ∧
     (handleTopicSubmit exPendingEdit "Photosynthesis" (Except.ok [exStep])).topic = "Photosynthesis") :=
  C5_topic_submit_resets exPendingEdit "Photosynthesis" [exStep] (by decide)

/-! ## Claim C6

When invoking the image edit is a no-op. -/

/-- Claim C6 as stated is false for the Pending disjunct: in
`exPendingEdit` the visual loading flag is set, yet `handleImageEdit`
still issues the edit request and changes the state (the handler never
consults `loading.visual`; the Pending exclusion is enforced only by the
UI, which hides the edit control while loading). -/
theorem C6_edit_during_pending_not_noop :
    exPendingEdit.loading.visual = true ∧
    (handleImageEdit exPendingEdit (Except.ok exEditResult)).2 = true ∧
    (handleImageEdit exPendingEdit (Except.ok exEditResult)).1 ≠ exPendingEdit := by
  refine ⟨rfl, rfl, ?_⟩
  decide

/-- Claim C6, amended: invoking the image-edit handler is a no-op (state
unchanged, no request issued) whenever the current `VisualContent` is
absent, not image-kind, or has no (or an empty) MIME type.  The handler
does not check the visual loading flag; the while-Pending exclusion is
enforced in the UI layer, which disables and unmounts the edit control
while a visual request is in flight. -/
theorem C6_invalid_edit_noop (s : AppState) (r : Except String ImageResult)
    (h : s.visualContent = none ∨
      ∃ v, s.visualContent = some v ∧
        (v.type ≠ VisualKind.image ∨ mimeTruthy v.mimeType = false)) :
    handleImageEdit s r = (s, false) := by
  have hc : canEdit s = false := by
    rcases h with h | ⟨v, hv, hcase⟩
    · simp [canEdit, h]
    · rcases hcase with hk | hm
      · simp [canEdit, hv, hk]
      · simp [canEdit, hv, hm]
  simp [handleImageEdit, hc]

/-- Witness for `C6_invalid_edit_noop`: with no visual at all, the edit
handler returns the state unchanged and issues no request. -/
theorem C6_invalid_edit_noop_witness :
    handleImageEdit initialState (Except.ok exEditResult) = (initialState, false) :=
  C6_invalid_edit_noop initialState (Except.ok exEditResult) (Or.inl rfl)

/-! ## Claim C9

A successful edit replaces only the visual payload. -/

/-- Claim C9: from any state where the edit guard passes (current visual
is image-kind with a usable MIME type), a successful edit stores the new
image payload as the current visual and leaves the step index, the plan
and the topic unchanged. -/
theorem C9_edit_replaces_only_visual (s : AppState) (r : ImageResult)
    (h : canEdit s = true) :
    (handleImageEdit s (Except.ok r)).1.visualContent =
      some { type := VisualKind.image, data := imageDataUrl r, mimeType := some r.mimeType } ∧
    (handleImageEdit s (Except.ok r)).1.currentStepIndex = s.currentStepIndex ∧
    (handleImageEdit s (Except.ok r)).1.simulationPlan = s.simulationPlan ∧
    (handleImageEdit s (Except.ok r)).1.topic = s.topic := by
  simp [handleImageEdit, handleImageEditPending, h]

/-- Witness for `C9_edit_replaces_only_visual` at `exEditable` with the
concrete edit payload `exEditResult`. -/
theorem C9_edit_replaces_only_visual_witness :
    (handleImageEdit exEditable (Except.ok exEditResult)).1.visualContent =
      some { type := VisualKind.image, data := imageDataUrl exEditResult
             mimeType := some exEditResult.mimeType } ∧
    (handleImageEdit exEditable (Except.ok exEditResult)).1.currentStepIndex =
      exEditable.currentStepIndex ∧
    (handleImageEdit exEditable (Except.ok exEditResult)).1.simulationPlan =
      exEditable.simulationPlan ∧
    (handleImageEdit exEditable (Except.ok exEditResult)).1.topic = exEditable.topic :=
  C9_edit_replaces_only_visual exEditable exEditResult (by decide)

end BioSim

namespace BioSim

/-- `handleImageEdit` never touches the plan or the index, whichever way
the guard and the edit outcome go. -/
theorem handleImageEdit_frame (s : AppState) (er : Except String ImageResult) :
    (handleImageEdit s er).1.simulationPlan = s.simulationPlan ∧
    (handleImageEdit s er).1.currentStepIndex = s.currentStepIndex := by
  by_cases hc : canEdit s
  · cases er <;> simp [handleImageEdit, handleImageEditPending, hc]
  · simp [handleImageEdit, hc]

/-- `generateVisualForCurrentStep` never touches the plan or the index. -/
theorem generateVisual_frame (s : AppState)
    (ir : Except String ImageResult) (vr : Except String String) :
    (generateVisualForCurrentStep s ir vr).simulationPlan = s.simulationPlan ∧
    (generateVisualForCurrentStep s ir vr).currentStepIndex = s.currentStepIndex := by
  unfold generateVisualForCurrentStep generateVisualPending
  by_cases hl : s.simulationPlan.length = 0
  · simp [hl]
  · simp only [hl, if_neg, ite_false]
    cases hg : s.simulationPlan[s.currentStepIndex]? with
    | none => simp
    | some step =>
        cases htp : step.type <;> · cases ir <;> cases vr <;> simp [hl, hg, htp]

/-- Transport of the index invariant along equal plan/index fields. -/
theorem IndexInv_of_frame {s t : AppState}
    (hp : t.simulationPlan = s.simulationPlan)
    (hi : t.currentStepIndex = s.currentStepIndex)
    (h : IndexInv s) : IndexInv t := by
  unfold IndexInv at h ⊢
  rw [hp, hi]
  exact h

/-! ## Claim C8

The index invariant is preserved by every operation. -/

/-- Claim C8: from any state satisfying the invariant, each of the
operations — topic submission together with its plan load
(`handleTopicSubmit`), step navigation (`goToStep`), image editing
(`handleImageEdit`) and visual generation/regeneration
(`generateVisualForCurrentStep`, the handler behind step changes and the
regenerate button) — leaves the current index within `[0, length-1]` of
the active plan, or the plan empty with index `0`. -/
theorem C8_index_invariant (s : AppState) (h : IndexInv s) (t : String)
    (pr : Except String (List SimulationStep)) (i : Int)
    (er ir : Except String ImageResult) (vr : Except String String) :
    IndexInv (handleTopicSubmit s t pr) ∧
    IndexInv (goToStep s i) ∧
    IndexInv (handleImageEdit s er).1 ∧
    IndexInv (generateVisualForCurrentStep s ir vr) := by
  refine ⟨?_, ?_, ?_, ?_⟩
  · unfold IndexInv
    cases pr with
    | ok plan =>
        by_cases hl : plan.length > 0
        · right
          simp [handleTopicSubmit, handleTopicSubmitPending, handleTopicSubmitSettle, hl]
        · left
          simp [handleTopicSubmit, handleTopicSubmitPending, handleTopicSubmitSettle, hl]
    | error m =>
        left
        simp [handleTopicSubmit, handleTopicSubmitPending, handleTopicSubmitSettle]
  · by_cases hg : 0 ≤ i ∧ i < (s.simulationPlan.length : Int)
    · unfold IndexInv
      right
      simp only [goToStep, if_pos hg]
      omega
    · have : goToStep s i = s := by simp [goToStep, hg]
      rw [this]
      exact h
  · exact IndexInv_of_frame (handleImageEdit_frame s er).1 (handleImageEdit_frame s er).2 h
  · exact IndexInv_of_frame (generateVisual_frame s ir vr).1 (generateVisual_frame s ir vr).2 h

/-- Witness for `C8_index_invariant` at the concrete state `exEditable`. -/
theorem C8_index_invariant_witness :
    IndexInv (handleTopicSubmit exEditable "Photosynthesis" (Except.ok [exStep])) ∧
    IndexInv (goToStep exEditable 0) ∧
    IndexInv (handleImageEdit exEditable (Except.ok exEditResult)).1 ∧
    IndexInv (generateVisualForCurrentStep exEditable
        (Except.ok exEditResult) (Except.ok "blob:video")) :=
  C8_index_invariant exEditable (by unfold IndexInv; exact Or.inr (by decide))
    "Photosynthesis" (Except.ok [exStep]) 0
    (Except.ok exEditResult) (Except.ok exEditResult) (Except.ok "blob:video")

/-! ## Claim C2

Video progress messages. -/

/-- The poll loop on `k` not-done checks followed by done: one cyclic
message per not-done check, starting at message index `i`, then the
post-completion download message. -/
theorem videoPollTrace_replicate (k : Nat) : ∀ (i : Nat) (tail : List Bool),
    videoPollTrace i (List.replicate k false ++ true :: tail) =
      (List.range k).map
        (fun j => videoGenerationMessages.getD ((i + j) % videoGenerationMessages.length) "") ++
        ["Fetching generated video..."] := by
  induction k with
  | zero =>
      intro i tail
      simp [videoPollTrace]
  | succ n ih =>
      intro i tail
      have hstep : videoPollTrace i (List.replicate (n + 1) false ++ true :: tail) =
          videoGenerationMessages.getD (i % videoGenerationMessages.length) "" ::
            videoPollTrace (i + 1) (List.replicate n false ++ true :: tail) := by
        rw [List.replicate_succ, List.cons_append]
        rfl
      rw [hstep, ih (i + 1) tail, List.range_succ_eq_map]
      simp only [List.map_cons, List.map_map, List.cons_append]
      refine congrArg₂ List.cons (by simp) (congrArg₂ List.append ?_ rfl)
      apply List.map_congr_left
      intro j _
      simp only [Function.comp_apply]
      congr 2
      omega

/-- Claim C2 as stated is false on the count: a job whose completion
check reports not-done exactly three times before reporting done emits
**four** messages from the fixed list — `videoGenerationMessages[0]` is
passed to `onProgress` before the job is even submitted, and one further
list message per not-done poll check — not three. -/
theorem C2_three_not_done_gives_four_messages :
    ((generateVideoProgress [false, false, false, true]).filter
        (fun m => videoGenerationMessages.contains m)).length = 4 ∧
    ¬ ((generateVideoProgress [false, false, false, true]).filter
        (fun m => videoGenerationMessages.contains m)).length = 3 := by
  constructor
  · rfl
  · decide

/-- Claim C2, amended: during `generateVideo` the progress messages from
the fixed list are delivered cyclically starting from the first message —
one before the job is submitted and then exactly one per not-done
completion check — and none once the job reports done (the subsequent
"Fetching generated video..." string is not from the list); a job whose
check reports not-done exactly `k` times therefore delivers exactly
`k + 1` list messages, the first `k + 1` entries of the cycle. -/
theorem C2_progress_messages_cyclic (k : Nat) (tail : List Bool) :
    generateVideoProgress (List.replicate k false ++ true :: tail) =
      (List.range (k + 1)).map
        (fun i => videoGenerationMessages.getD (i % videoGenerationMessages.length) "") ++
        ["Fetching generated video..."] := by
  unfold generateVideoProgress
  rw [videoPollTrace_replicate k 1 tail, List.range_succ_eq_map]
  simp only [List.map_cons, List.map_map, List.cons_append, Function.comp]
  refine congrArg₂ List.cons (by norm_num) (congrArg₂ List.append ?_ rfl)
  apply List.map_congr_left
  intro j _
  congr 2
  omega

end BioSim

namespace BioSim

/-! ### Round-trip lemmas: JSON layer -/

/-- `hexVal` inverts `hexDigitLower` on digit values. -/
theorem hexVal_lower : ∀ n < 16, hexVal (hexDigitLower n) = some n := by decide

/-- `hexVal` inverts `hexDigitUpper` on digit values. -/
theorem hexVal_upper : ∀ n < 16, hexVal (hexDigitUpper n) = some n := by decide

/-- `String.mk` inverts `String.data`. -/
theorem stringMk_data (s : String) : String.mk s.data = s := rfl

/-- The string parser on a `\u00xy` escape. -/
theorem parseJStr_u (a b : Nat) (ha : a < 16) (hb : b < 16) (input : List Char) :
    parseJStr ('\\' :: 'u' :: '0' :: '0' :: hexDigitLower a :: hexDigitLower b :: input) =
      (parseJStr input).map (fun p => (Char.ofNat (a * 16 + b) :: p.1, p.2)) := by
  have h0 : hexVal '0' = some 0 := rfl
  simp [parseJStr, h0, hexVal_lower a ha, hexVal_lower b hb]

/-- One parser step at the closing quote. -/
theorem parseJStr_close (rest : List Char) : parseJStr ('"' :: rest) = some ([], rest) := by
  rw [parseJStr.eq_def]; simp

/-- One parser step at an escaped quote. -/
theorem parseJStr_esc_quote (x : List Char) :
    parseJStr ('\\' :: '"' :: x) = (parseJStr x).map (fun p => ('"' :: p.1, p.2)) := by
  rw [parseJStr.eq_def]; simp

/-- One parser step at an escaped backslash. -/
theorem parseJStr_esc_back (x : List Char) :
    parseJStr ('\\' :: '\\' :: x) = (parseJStr x).map (fun p => ('\\' :: p.1, p.2)) := by
  rw [parseJStr.eq_def]; simp

/-- One parser step at `\b`. -/
theorem parseJStr_esc_b (x : List Char) :
    parseJStr ('\\' :: 'b' :: x) = (parseJStr x).map (fun p => ('\x08' :: p.1, p.2)) := by
  rw [parseJStr.eq_def]; simp

/-- One parser step at `\t`. -/
theorem parseJStr_esc_t (x : List Char) :
    parseJStr ('\\' :: 't' :: x) = (parseJStr x).map (fun p => ('\x09' :: p.1, p.2)) := by
  rw [parseJStr.eq_def]; simp

/-- One parser step at `\n`. -/
theorem parseJStr_esc_n (x : List Char) :
    parseJStr ('\\' :: 'n' :: x) = (parseJStr x).map (fun p => ('\x0a' :: p.1, p.2)) := by
  rw [parseJStr.eq_def]; simp

/-- One parser step at `\f`. -/
theorem parseJStr_esc_f (x : List Char) :
    parseJStr ('\\' :: 'f' :: x) = (parseJStr x).map (fun p => ('\x0c' :: p.1, p.2)) := by
  rw [parseJStr.eq_def]; simp

/-- One parser step at `\r`. -/
theorem parseJStr_esc_r (x : List Char) :
    parseJStr ('\\' :: 'r' :: x) = (parseJStr x).map (fun p => ('\x0d' :: p.1, p.2)) := by
  rw [parseJStr.eq_def]; simp

/-- One parser step at an unescaped character. -/
theorem parseJStr_plain (c : Char) (h1 : c ≠ '"') (h2 : c ≠ '\\') (x : List Char) :
    parseJStr (c :: x) = (parseJStr x).map (fun p => (c :: p.1, p.2)) := by
  rw [parseJStr.eq_def]
  simp [h1, h2]

/-- The string parser inverts `jsonEscapeChar` character by character up
to the closing quote. -/
theorem parseJStr_escape (s : List Char) : ∀ rest : List Char,
    parseJStr (s.flatMap jsonEscapeChar ++ '"' :: rest) = some (s, rest) := by
  induction s with
  | nil =>
      intro rest
      simp [parseJStr_close]
  | cons c cs ih =>
      intro rest
      rw [List.flatMap_cons, List.append_assoc]
      by_cases h1 : c = '"'
      · subst h1; simp [jsonEscapeChar, parseJStr_esc_quote, ih]
      by_cases h2 : c = '\\'
      · subst h2; simp [jsonEscapeChar, parseJStr_esc_back, ih]
      by_cases h3 : c = '\x08'
      · subst h3; simp [jsonEscapeChar, parseJStr_esc_b, ih]
      by_cases h4 : c = '\x09'
      · subst h4; simp [jsonEscapeChar, parseJStr_esc_t, ih]
      by_cases h5 : c = '\x0a'
      · subst h5; simp [jsonEscapeChar, parseJStr_esc_n, ih]
      by_cases h6 : c = '\x0c'
      · subst h6; simp [jsonEscapeChar, parseJStr_esc_f, ih]
      by_cases h7 : c = '\x0d'
      · subst h7; simp [jsonEscapeChar, parseJStr_esc_r, ih]
      by_cases h8 : c.toNat < 32
      · have hesc : jsonEscapeChar c =
            ['\\', 'u', '0', '0', hexDigitLower (c.toNat / 16), hexDigitLower (c.toNat % 16)] := by
          simp [jsonEscapeChar, h1, h2, h3, h4, h5, h6, h7, h8]
        rw [hesc]
        simp only [List.cons_append, List.nil_append]
        rw [parseJStr_u _ _ (by omega) (by omega), ih rest]
        have harith : c.toNat / 16 * 16 + c.toNat % 16 = c.toNat := by omega
        simp [harith, Char.ofNat_toNat]
      · have hesc : jsonEscapeChar c = [c] := by
          simp [jsonEscapeChar, h1, h2, h3, h4, h5, h6, h7, h8]
        rw [hesc]
        simp only [List.cons_append, List.nil_append]
        rw [parseJStr_plain c h1 h2, ih rest]
        rfl

/-- `parseLit` accepts exactly its literal and returns the remainder. -/
theorem parseLit_append (lit : List Char) : ∀ rest : List Char,
    parseLit lit (lit ++ rest) = some rest := by
  induction lit with
  | nil => intro rest; simp [parseLit]
  | cons l ls ih => intro rest; simp [parseLit, ih]

/-- The quoted-string parser inverts `jsonQuote`. -/
theorem parseQStr_quote (s : List Char) (rest : List Char) :
    parseQStr (jsonQuote s ++ rest) = some (s, rest) := by
  unfold jsonQuote
  rw [List.cons_append, List.append_assoc, List.singleton_append]
  simp [parseQStr, parseJStr_escape]

/-- The kind parser inverts the quoted kind serialization. -/
theorem parseKind_quote (k : VisualKind) (rest : List Char) :
    parseKind (jsonQuote (kindChars k) ++ rest) = some (k, rest) := by
  cases k <;> simp [parseKind, parseQStr_quote, kindChars]

/-- The step parser inverts `stringifyStep`. -/
theorem parseStep_stringify (st : SimulationStep) (rest : List Char) :
    parseStep (stringifyStep st ++ rest) = some (st, rest) := by
  unfold stringifyStep parseStep
  simp [List.append_assoc, parseLit_append, parseQStr_quote, parseKind_quote, stringMk_data]

end BioSim

namespace BioSim

/-- Every serialized list element occupies at least one character. -/
theorem length_le_flatSteps (l : List SimulationStep) :
    l.length ≤ (l.flatMap (fun s2 => ',' :: stringifyStep s2)).length := by
  induction l with
  | nil => simp
  | cons a t ih =>
      rw [List.flatMap_cons]
      simp only [List.length_cons, List.length_append]
      omega

/-- The serialized plan is at least as long as the plan. -/
theorem length_le_stringifyPlan (plan : List SimulationStep) :
    plan.length ≤ (stringifyPlan plan).length := by
  cases plan with
  | nil => simp [stringifyPlan]
  | cons st l' =>
      have h := length_le_flatSteps l'
      simp only [stringifyPlan, List.length_cons, List.length_append]
      omega

/-- The array-tail parser inverts the comma-separated serialization,
given fuel at least the number of elements. -/
theorem parseMoreSteps_flat (l : List SimulationStep) : ∀ (f : Nat) (rest : List Char),
    l.length ≤ f →
    parseMoreSteps f (l.flatMap (fun st => ',' :: stringifyStep st) ++ ']' :: rest) =
      some (l, rest) := by
  induction l with
  | nil =>
      intro f rest _
      rw [List.flatMap_nil, List.nil_append, parseMoreSteps.eq_def]
      simp
  | cons st l' ih =>
      intro f rest h
      rw [List.flatMap_cons]
      simp only [List.cons_append, List.append_assoc]
      cases f with
      | zero => simp at h
      | succ f' =>
          rw [parseMoreSteps.eq_def]
          simp only [List.length_cons] at h
          simp [parseStep_stringify, ih f' rest (by omega)]

/-- Reduction of the array parser at a non-empty, non-`]` element
start. -/
theorem parseStepArray_cons (f : Nat) (input : List Char)
    (h : ∃ d t, input = d :: t ∧ d ≠ ']') :
    parseStepArray f ('[' :: input) =
      (parseStep input).bind fun ps =>
      (parseMoreSteps f ps.2).map fun pm => (ps.1 :: pm.1, pm.2) := by
  obtain ⟨d, t, rfl, hd⟩ := h
  rw [parseStepArray.eq_def]
  simp [hd]

/-- The array parser inverts `stringifyPlan`, given fuel at least the
number of steps. -/
theorem parseStepArray_stringify (plan : List SimulationStep) (f : Nat) (rest : List Char)
    (h : plan.length ≤ f) :
    parseStepArray f (stringifyPlan plan ++ rest) = some (plan, rest) := by
  cases plan with
  | nil =>
      rw [stringifyPlan.eq_def]
      simp [parseStepArray.eq_def]
  | cons st l' =>
      have heq : stringifyPlan (st :: l') ++ rest =
          '[' :: (stringifyStep st ++
            (l'.flatMap (fun s2 => ',' :: stringifyStep s2) ++ (']' :: rest))) := by
        simp [stringifyPlan, List.append_assoc]
      rw [heq]
      have hcons : ∃ d t, stringifyStep st ++
          (l'.flatMap (fun s2 => ',' :: stringifyStep s2) ++ (']' :: rest)) = d :: t ∧ d ≠ ']' := by
        have h1 : (stringifyStep st ++
            (l'.flatMap (fun s2 => ',' :: stringifyStep s2) ++ (']' :: rest))).head? =
            some '\x7b' := rfl
        cases hx : stringifyStep st ++
            (l'.flatMap (fun s2 => ',' :: stringifyStep s2) ++ (']' :: rest)) with
        | nil => rw [hx] at h1; cases h1
        | cons d t =>
            rw [hx] at h1
            simp only [List.head?_cons, Option.some.injEq] at h1
            subst h1
            exact ⟨_, _, rfl, by decide⟩
      rw [parseStepArray_cons f _ hcons, parseStep_stringify,
        Option.some_bind]
      simp only [List.length_cons] at h
      rw [parseMoreSteps_flat l' f rest (by omega)]
      rfl

/-- `parseLit` on exactly its literal leaves nothing. -/
theorem parseLit_self (lit : List Char) : parseLit lit lit = some [] := by
  have h := parseLit_append lit []
  rwa [List.append_nil] at h

/-- `JSON.parse` (restricted to the payload shape) inverts
`JSON.stringify` on the share payload. -/
theorem parseShare_stringify (t : String) (plan : List SimulationStep) :
    parseShare (stringifyShare t plan) = some (t, plan) := by
  unfold parseShare stringifyShare
  simp only [List.append_assoc]
  rw [parseLit_append, Option.some_bind, parseQStr_quote, Option.some_bind,
    parseLit_append, Option.some_bind]
  have hfuel : plan.length ≤ (stringifyPlan plan ++ closeBraceKey).length := by
    have h1 := length_le_stringifyPlan plan
    rw [List.length_append]
    omega
  rw [parseStepArray_stringify plan _ closeBraceKey hfuel, Option.some_bind,
    parseLit_self, Option.some_bind]
  simp [stringMk_data]

end BioSim

namespace BioSim

/-! ### Round-trip lemmas: percent-encoding layer -/

/-- Unicode scalar values are below `0x110000`. -/
theorem char_toNat_lt (c : Char) : c.toNat < 1114112 := by
  have h := c.valid
  unfold UInt32.isValidChar Nat.isValidChar at h
  have he : c.toNat = c.val.toNat := rfl
  rcases h with h | h <;> omega

/-- Unreserved characters are latin1 (in fact ASCII). -/
theorem uriUnreserved_lt_256 (c : Char) (h : uriUnreserved c = true) : c.toNat < 256 := by
  unfold uriUnreserved at h
  simp only [Bool.or_eq_true, decide_eq_true_eq] at h
  rcases h with ((h | h) | h) | h
  · omega
  · omega
  · omega
  · have hm : c ∈ uriMarks := by
      simpa using h
    fin_cases hm <;> decide

/-- Unreserved characters are never the percent sign. -/
theorem uriUnreserved_ne_pct (c : Char) (h : uriUnreserved c = true) : c ≠ '%' := by
  intro hc
  subst hc
  exact absurd h (by decide)

/-- UTF-8 bytes are bytes. -/
theorem utf8Bytes_lt_256 (c : Char) : ∀ b ∈ utf8Bytes c, b < 256 := by
  have hc := char_toNat_lt c
  intro b hb
  unfold utf8Bytes at hb
  split_ifs at hb with h1 h2 h3 <;> simp only [List.mem_cons, List.mem_singleton,
    List.not_mem_nil, or_false] at hb
  · omega
  · rcases hb with rfl | rfl <;> omega
  · rcases hb with rfl | rfl | rfl <;> omega
  · rcases hb with rfl | rfl | rfl | rfl <;> omega

/-- The tokenizer on one percent-escaped byte. -/
theorem pctTokens_pctByte (b : Nat) (hb : b < 256) (k : List Char) :
    pctTokens (pctByte b ++ k) = (pctTokens k).map (fun ts => Tok.byte b :: ts) := by
  have h1 : hexVal (hexDigitUpper (b / 16)) = some (b / 16) := hexVal_upper _ (by omega)
  have h2 : hexVal (hexDigitUpper (b % 16)) = some (b % 16) := hexVal_upper _ (by omega)
  rw [pctByte, List.cons_append, List.cons_append, List.cons_append, List.nil_append]
  rw [pctTokens.eq_def]
  have harith : b / 16 * 16 + b % 16 = b := by omega
  simp [h1, h2, harith]

/-- The tokenizer on a run of percent-escaped bytes. -/
theorem pctTokens_bytes (bs : List Nat) (hbs : ∀ b ∈ bs, b < 256) (k : List Char) :
    pctTokens (bs.flatMap pctByte ++ k) =
      (pctTokens k).map (fun ts => bs.map Tok.byte ++ ts) := by
  induction bs with
  | nil =>
      simp only [List.flatMap_nil, List.nil_append, List.map_nil]
      cases pctTokens k <;> simp
  | cons b bs' ih =>
      rw [List.flatMap_cons, List.append_assoc,
        pctTokens_pctByte b (hbs b (by simp)) _,
        ih (fun x hx => hbs x (by simp [hx]))]
      cases pctTokens k <;> simp

/-- The tokenizer inverts `encodeURIComponent` into the token stream. -/
theorem pctTokens_encode (s : List Char) : ∀ k : List Char,
    pctTokens (encodeURIComponent s ++ k) =
      (pctTokens k).map (fun ts => s.flatMap tokOf ++ ts) := by
  induction s with
  | nil =>
      intro k
      simp only [encodeURIComponent, List.flatMap_nil, List.nil_append]
      cases pctTokens k <;> simp
  | cons c cs ih =>
      intro k
      have hstep : encodeURIComponent (c :: cs) =
          (if uriUnreserved c then [c] else (utf8Bytes c).flatMap pctByte) ++
            encodeURIComponent cs := by
        simp [encodeURIComponent]
      rw [hstep, List.append_assoc]
      by_cases hu : uriUnreserved c
      · have hne : ¬ c = '%' := uriUnreserved_ne_pct c hu
        rw [if_pos hu, List.singleton_append, pctTokens.eq_def]
        simp only [hne, if_false, ite_false]
        rw [ih k]
        simp only [List.flatMap_cons, tokOf, if_pos hu, List.singleton_append]
        cases pctTokens k <;> simp
      · rw [if_neg hu, pctTokens_bytes _ (utf8Bytes_lt_256 c) _, ih k]
        simp only [List.flatMap_cons, tokOf, if_neg hu]
        cases pctTokens k <;> simp

end BioSim


namespace BioSim

/-! ### Round-trip lemmas: UTF-8 decoding layer -/

/-- One character's token run is never empty. -/
theorem tokOf_ne_nil (c : Char) : tokOf c ≠ [] := by
  unfold tokOf
  by_cases hu : uriUnreserved c
  · simp [hu]
  · simp only [hu, if_false, ite_false]
    unfold utf8Bytes
    split_ifs <;> simp

/-- A token stream is at least as long as the characters it encodes. -/
theorem length_le_flatTok (s : List Char) : s.length ≤ (s.flatMap tokOf).length := by
  induction s with
  | nil => simp
  | cons c cs ih =>
      rw [List.flatMap_cons, List.length_append, List.length_cons]
      have h := tokOf_ne_nil c
      have : 1 ≤ (tokOf c).length := by
        cases hx : tokOf c with
        | nil => exact absurd hx h
        | cons a t => simp
      omega

/-- The single-character decoder inverts one character's token run, for
any continuation. -/
theorem utf8DecodeOne_tokOf (c : Char) (k : List Tok) :
    utf8DecodeOne (tokOf c ++ k) = some (c, k) := by
  by_cases hu : uriUnreserved c
  · rw [tokOf, if_pos hu, List.singleton_append, utf8DecodeOne]
  · rw [tokOf, if_neg hu]
    have hc := char_toNat_lt c
    by_cases g1 : c.toNat < 128
    · rw [utf8Bytes, if_pos g1]
      simp only [List.map_cons, List.map_nil, List.cons_append, List.nil_append]
      rw [utf8DecodeOne]
      simp [g1, Char.ofNat_toNat]
    · by_cases g2 : c.toNat < 2048
      · rw [utf8Bytes, if_neg g1, if_pos g2]
        simp only [List.map_cons, List.map_nil, List.cons_append, List.nil_append]
        have e1 : ¬ 192 + c.toNat / 64 < 128 := by omega
        have e2 : ¬ 192 + c.toNat / 64 < 192 := by omega
        have e3 : 192 + c.toNat / 64 < 224 := by omega
        have e4 : 128 ≤ 128 + c.toNat % 64 ∧ 128 + c.toNat % 64 < 192 := by omega
        have harith : (192 + c.toNat / 64 - 192) * 64 + (128 + c.toNat % 64 - 128) =
            c.toNat := by omega
        rw [utf8DecodeOne]
        simp [contVal, e1, e2, e3, e4, harith, Char.ofNat_toNat]
        have h2 : c.toNat / 64 * 64 + c.toNat % 64 = c.toNat := by omega
        rw [h2, Char.ofNat_toNat]
      · by_cases g3 : c.toNat < 65536
        · rw [utf8Bytes, if_neg g1, if_neg g2, if_pos g3]
          simp only [List.map_cons, List.map_nil, List.cons_append, List.nil_append]
          have e1 : ¬ 224 + c.toNat / 4096 < 128 := by omega
          have e2 : ¬ 224 + c.toNat / 4096 < 192 := by omega
          have e3 : ¬ 224 + c.toNat / 4096 < 224 := by omega
          have e4 : 224 + c.toNat / 4096 < 240 := by omega
          have e5 : 128 ≤ 128 + c.toNat / 64 % 64 ∧ 128 + c.toNat / 64 % 64 < 192 := by omega
          have e6 : 128 ≤ 128 + c.toNat % 64 ∧ 128 + c.toNat % 64 < 192 := by omega
          have harith : (224 + c.toNat / 4096 - 224) * 4096 +
              (128 + c.toNat / 64 % 64 - 128) * 64 + (128 + c.toNat % 64 - 128) = c.toNat := by
            omega
          rw [utf8DecodeOne]
          simp [contVal, e1, e2, e3, e4, e5, e6, harith, Char.ofNat_toNat]
          have h2 : c.toNat / 4096 * 4096 + c.toNat / 64 % 64 * 64 + c.toNat % 64 =
              c.toNat := by omega
          rw [h2, Char.ofNat_toNat]
        · rw [utf8Bytes, if_neg g1, if_neg g2, if_neg g3]
          simp only [List.map_cons, List.map_nil, List.cons_append, List.nil_append]
          have e1 : ¬ 240 + c.toNat / 262144 < 128 := by omega
          have e2 : ¬ 240 + c.toNat / 262144 < 192 := by omega
          have e3 : ¬ 240 + c.toNat / 262144 < 224 := by omega
          have e4 : ¬ 240 + c.toNat / 262144 < 240 := by omega
          have e5 : 240 + c.toNat / 262144 < 248 := by omega
          have e6 : 128 ≤ 128 + c.toNat / 4096 % 64 ∧ 128 + c.toNat / 4096 % 64 < 192 := by omega
          have e7 : 128 ≤ 128 + c.toNat / 64 % 64 ∧ 128 + c.toNat / 64 % 64 < 192 := by omega
          have e8 : 128 ≤ 128 + c.toNat % 64 ∧ 128 + c.toNat % 64 < 192 := by omega
          have harith : (240 + c.toNat / 262144 - 240) * 262144 +
              (128 + c.toNat / 4096 % 64 - 128) * 4096 +
              (128 + c.toNat / 64 % 64 - 128) * 64 + (128 + c.toNat % 64 - 128) = c.toNat := by
            omega
          rw [utf8DecodeOne]
          simp [contVal, e1, e2, e3, e4, e5, e6, e7, e8, harith, Char.ofNat_toNat]
          have h2 : c.toNat / 262144 * 262144 + c.toNat / 4096 % 64 * 4096 +
              c.toNat / 64 % 64 * 64 + c.toNat % 64 = c.toNat := by omega
          rw [h2, Char.ofNat_toNat]

/-- Reduction of the decode driver on a non-empty stream. -/
theorem toksDecodeAux_cons (f : Nat) (ts : List Tok) (h : ts ≠ []) :
    toksDecodeAux (f + 1) ts =
      (utf8DecodeOne ts).bind fun p =>
      (toksDecodeAux f p.2).map fun l => p.1 :: l := by
  cases ts with
  | nil => exact absurd rfl h
  | cons t r => rw [toksDecodeAux]

/-- The decode driver inverts an encoded token stream, leaving the fuel
for the continuation. -/
theorem toksDecodeAux_flat (s : List Char) : ∀ (f : Nat) (k : List Tok),
    s.length ≤ f →
    toksDecodeAux f (s.flatMap tokOf ++ k) =
      (toksDecodeAux (f - s.length) k).map (fun l => s ++ l) := by
  induction s with
  | nil =>
      intro f k _
      simp only [List.flatMap_nil, List.nil_append, List.length_nil, Nat.sub_zero]
      cases toksDecodeAux f k <;> simp
  | cons c cs ih =>
      intro f k h
      rw [List.length_cons] at h
      cases f with
      | zero => omega
      | succ f' =>
          rw [List.flatMap_cons, List.append_assoc]
          have hne : tokOf c ++ (cs.flatMap tokOf ++ k) ≠ [] := by
            intro hx
            exact tokOf_ne_nil c (List.append_eq_nil.mp hx).1
          rw [toksDecodeAux_cons f' _ hne, utf8DecodeOne_tokOf, Option.some_bind,
            ih f' k (by omega)]
          have hs : f' + 1 - (cs.length + 1) = f' - cs.length := by omega
          rw [List.length_cons, hs]
          cases toksDecodeAux (f' - cs.length) k <;> simp

/-- The second decode phase inverts the token encoding of a string. -/
theorem toksDecode_flat (s : List Char) : toksDecode (s.flatMap tokOf) = some s := by
  unfold toksDecode
  have h := toksDecodeAux_flat s (s.flatMap tokOf).length [] (length_le_flatTok s)
  rw [List.append_nil] at h
  rw [h]
  have hz : ∀ f, toksDecodeAux f ([] : List Tok) = some [] := by
    intro f
    cases f with
    | zero => rfl
    | succ g => rfl
  rw [hz]
  simp

/-- `decodeURIComponent` inverts `encodeURIComponent`. -/
theorem decodeURIComponent_encode (s : List Char) :
    decodeURIComponent (encodeURIComponent s) = some s := by
  unfold decodeURIComponent
  have h1 := pctTokens_encode s []
  rw [List.append_nil] at h1
  have h2 : pctTokens ([] : List Char) = some [] := rfl
  rw [h2] at h1
  rw [h1]
  simp [toksDecode_flat]

end BioSim

namespace BioSim

/-! ### Round-trip lemmas: base64 layer -/

/-- `b64Val` inverts `b64Char` on sextet values. -/
theorem b64Val_b64Char : ∀ n < 64, b64Val (b64Char n) = some n := by decide

/-- Base64 digits are never the padding character. -/
theorem b64Char_ne_pad (n : Nat) : b64Char n ≠ '=' := by
  unfold b64Char
  rcases hx : b64Table[n]? with _ | c
  · rw [List.getD_eq_getElem?_getD, hx]
    decide
  · rw [List.getD_eq_getElem?_getD, hx]
    obtain ⟨hlt, rfl⟩ := List.getElem?_eq_some.mp hx
    have hc : b64Table[n] ∈ b64Table := List.getElem_mem hlt
    simp only [Option.getD_some]
    intro heq
    rw [heq] at hc
    revert hc
    decide

/-- `b64decode` inverts `b64encode` on byte sequences. -/
theorem b64decode_encode : ∀ (bs : List Nat), (∀ b ∈ bs, b < 256) →
    b64decode (b64encode bs) = some bs
  | [] => fun _ => by
      rw [b64encode, b64decode]
  | [b1] => fun h => by
      have hb1 : b1 < 256 := h b1 (by simp)
      have h1 : b64Val (b64Char (b1 / 4)) = some (b1 / 4) := b64Val_b64Char _ (by omega)
      have h2 : b64Val (b64Char (b1 % 4 * 16)) = some (b1 % 4 * 16) := b64Val_b64Char _ (by omega)
      have harith : b1 / 4 * 4 + b1 % 4 * 16 / 16 = b1 := by omega
      have harith2 : b1 / 4 * 4 + b1 % 4 = b1 := by omega
      rw [b64encode, b64decode.eq_def]
      simp [h1, h2, harith, harith2]
  | [b1, b2] => fun h => by
      have hb1 : b1 < 256 := h b1 (by simp)
      have hb2 : b2 < 256 := h b2 (by simp)
      have h1 : b64Val (b64Char (b1 / 4)) = some (b1 / 4) := b64Val_b64Char _ (by omega)
      have h2 : b64Val (b64Char (b1 % 4 * 16 + b2 / 16)) = some (b1 % 4 * 16 + b2 / 16) :=
        b64Val_b64Char _ (by omega)
      have h3 : b64Val (b64Char (b2 % 16 * 4)) = some (b2 % 16 * 4) := b64Val_b64Char _ (by omega)
      have hne : b64Char (b2 % 16 * 4) ≠ '=' := b64Char_ne_pad _
      have ha1 : b1 / 4 * 4 + (b1 % 4 * 16 + b2 / 16) / 16 = b1 := by omega
      have ha2 : (b1 % 4 * 16 + b2 / 16) % 16 * 16 + b2 % 16 * 4 / 4 = b2 := by omega
      have ha2n : (b1 % 4 * 16 + b2 / 16) % 16 * 16 + b2 % 16 = b2 := by omega
      rw [b64encode, b64decode.eq_def]
      simp [h1, h2, h3, hne, ha1, ha2, ha2n]
  | b1 :: b2 :: b3 :: rest => fun h => by
      have hb1 : b1 < 256 := h b1 (by simp)
      have hb2 : b2 < 256 := h b2 (by simp)
      have hb3 : b3 < 256 := h b3 (by simp)
      have h1 : b64Val (b64Char (b1 / 4)) = some (b1 / 4) := b64Val_b64Char _ (by omega)
      have h2 : b64Val (b64Char (b1 % 4 * 16 + b2 / 16)) = some (b1 % 4 * 16 + b2 / 16) :=
        b64Val_b64Char _ (by omega)
      have h3 : b64Val (b64Char (b2 % 16 * 4 + b3 / 64)) = some (b2 % 16 * 4 + b3 / 64) :=
        b64Val_b64Char _ (by omega)
      have h4 : b64Val (b64Char (b3 % 64)) = some (b3 % 64) := b64Val_b64Char _ (by omega)
      have hne3 : b64Char (b2 % 16 * 4 + b3 / 64) ≠ '=' := b64Char_ne_pad _
      have hne4 : b64Char (b3 % 64) ≠ '=' := b64Char_ne_pad _
      have ha1 : b1 / 4 * 4 + (b1 % 4 * 16 + b2 / 16) / 16 = b1 := by omega
      have ha2 : (b1 % 4 * 16 + b2 / 16) % 16 * 16 + (b2 % 16 * 4 + b3 / 64) / 4 = b2 := by
        omega
      have ha3 : (b2 % 16 * 4 + b3 / 64) % 4 * 64 + b3 % 64 = b3 := by omega
      have hrec := b64decode_encode rest (fun x hx => h x (by simp [hx]))
      rw [b64encode, b64decode.eq_def]
      simp [h1, h2, h3, h4, hne3, hne4, ha1, ha2, ha3, hrec]

end BioSim

namespace BioSim

/-! ### Round-trip: the full share encoding -/

/-- `encodeURIComponent` output is pure ASCII, hence latin1-safe for
`btoa`. -/
theorem encodeURIComponent_ascii (s : List Char) :
    ∀ c ∈ encodeURIComponent s, c.toNat < 256 := by
  intro c hc
  unfold encodeURIComponent at hc
  simp only [List.mem_flatMap] at hc
  obtain ⟨a, ha, hc⟩ := hc
  by_cases hu : uriUnreserved a
  · rw [if_pos hu] at hc
    simp only [List.mem_singleton] at hc
    rw [hc]
    exact uriUnreserved_lt_256 a hu
  · rw [if_neg hu] at hc
    simp only [List.mem_flatMap] at hc
    obtain ⟨b, hb, hc⟩ := hc
    have hb256 : b < 256 := utf8Bytes_lt_256 a b hb
    have hhex : ∀ m < 16, (hexDigitUpper m).toNat < 256 := by decide
    simp only [pctByte, List.mem_cons, List.not_mem_nil, or_false] at hc
    rcases hc with rfl | rfl | rfl
    · decide
    · exact hhex _ (by omega)
    · exact hhex _ (by omega)

/-- `atob` inverts `btoa` on latin1 strings. -/
theorem atob_btoa (s : List Char) (h : ∀ c ∈ s, c.toNat < 256) :
    (btoa s).bind atob = some s := by
  unfold btoa
  have hall : s.all (fun c => c.toNat < 256) = true := by
    rw [List.all_eq_true]
    intro c hc
    exact decide_eq_true (h c hc)
  rw [if_pos hall, Option.some_bind]
  unfold atob
  have hbytes : ∀ b ∈ s.map Char.toNat, b < 256 := by
    intro b hb
    rw [List.mem_map] at hb
    obtain ⟨c, hc, rfl⟩ := hb
    exact h c hc
  rw [b64decode_encode (s.map Char.toNat) hbytes]
  simp only [Option.map, List.map_map]
  have hid : List.map (Char.ofNat ∘ Char.toNat) s = List.map id s :=
    List.map_congr_left (fun c _ => Char.ofNat_toNat c)
  rw [hid, List.map_id]

/-! ## Claim C7

Share-link round trip. -/

/-- Claim C7: for every topic string (separators and unicode included)
and every step array, the query parameter built by `handleShare`
(JSON serialization, percent-encoding, then base64) decodes — by the
inverse chain of `loadSimulationFromURL` — to the identical topic and a
field-for-field equal step array. -/
theorem C7_share_roundtrip (topic : String) (plan : List SimulationStep) :
    (handleShareParam topic plan).bind decodeShare = some (topic, plan) := by
  unfold handleShareParam decodeShare
  have hascii := encodeURIComponent_ascii (stringifyShare topic plan)
  have hb := atob_btoa (encodeURIComponent (stringifyShare topic plan)) hascii
  cases hbt : btoa (encodeURIComponent (stringifyShare topic plan)) with
  | none => rw [hbt, Option.none_bind] at hb; cases hb
  | some enc =>
      rw [hbt, Option.some_bind] at hb
      rw [Option.some_bind, hb, Option.some_bind,
        decodeURIComponent_encode, Option.some_bind, parseShare_stringify]

end BioSim

namespace BioSim

/-! ## Claim C10

Shared-state loading from the URL. -/

/-- Claim C10 as stated is false on the clean-up clause: a `simulation`
parameter that is present with an empty value (`?simulation=`) is falsy
in the `if (sharedData)` guard, so the whole block — the `finally`
included — is skipped: the state is indeed unchanged and no error is set,
but the parameter is **not** removed from the URL. -/
theorem C10_empty_param_not_removed :
    (loadSimulationFromURL exEditable (some "")).2 = false ∧
    (loadSimulationFromURL exEditable (some "")).1 = exEditable := by
  constructor
  · rfl
  · rfl

/-- Claim C10, amended: for every present, non-empty parameter value the
parameter is removed from the URL afterwards; the decoded state is
applied only when the value decodes and parses to a truthy (non-empty)
topic plus a non-empty step array; otherwise — and on any decode
failure — the topic and plan are unchanged; in every case the error,
index, visual and loading state are untouched.  A present-but-empty
parameter is ignored entirely: nothing changes and the parameter stays
in the URL.  (An absent parameter triggers nothing.) -/
theorem C10_url_load (s : AppState) (v : String) (hv : v ≠ "") :
    ((loadSimulationFromURL s (some v)).2 = true ∧
     (loadSimulationFromURL s (some v)).1.error = s.error ∧
     (loadSimulationFromURL s (some v)).1.currentStepIndex = s.currentStepIndex ∧
     (loadSimulationFromURL s (some v)).1.visualContent = s.visualContent ∧
     (loadSimulationFromURL s (some v)).1.loading = s.loading) ∧
    (∀ t plan, decodeShare v.data = some (t, plan) → t ≠ "" → plan ≠ [] →
      (loadSimulationFromURL s (some v)).1.topic = t ∧
      (loadSimulationFromURL s (some v)).1.simulationPlan = plan) ∧
    (∀ t plan, decodeShare v.data = some (t, plan) → (t = "" ∨ plan = []) →
      (loadSimulationFromURL s (some v)).1 = s) ∧
    (decodeShare v.data = none → (loadSimulationFromURL s (some v)).1 = s) ∧
    loadSimulationFromURL s (some "") = (s, false) ∧
    loadSimulationFromURL s none = (s, false) := by
  refine ⟨?_, ?_, ?_, ?_, by rfl, by rfl⟩
  · cases hd : decodeShare v.data with
    | none => simp [loadSimulationFromURL, hv, hd]
    | some p =>
        obtain ⟨t, plan⟩ := p
        by_cases hg : t ≠ "" ∧ plan.length > 0
        · simp [loadSimulationFromURL, hv, hd, hg]
        · simp [loadSimulationFromURL, hv, hd, hg]
  · intro t plan hd ht hp
    have hlen : plan.length > 0 := by
      cases plan with
      | nil => exact absurd rfl hp
      | cons a l => simp
    simp [loadSimulationFromURL, hv, hd, ht, hlen]
  · intro t plan hd hbad
    have hng : ¬ (t ≠ "" ∧ plan.length > 0) := by
      rcases hbad with rfl | rfl <;> simp
    simp [loadSimulationFromURL, hv, hd, hng]
  · intro hd
    simp [loadSimulationFromURL, hv, hd]

/-- Witness for `C10_url_load` at the concrete undecodable parameter
value `"x"` (not a base64 block, so the decode chain fails and the state
survives unchanged while the parameter is still removed). -/
theorem C10_url_load_witness :
    ((loadSimulationFromURL initialState (some "x")).2 = true ∧
     (loadSimulationFromURL initialState (some "x")).1.error = initialState.error ∧
     (loadSimulationFromURL initialState (some "x")).1.currentStepIndex =
       initialState.currentStepIndex ∧
     (loadSimulationFromURL initialState (some "x")).1.visualContent =
       initialState.visualContent ∧
     (loadSimulationFromURL initialState (some "x")).1.loading = initialState.loading) ∧
    (∀ t plan, decodeShare "x".data = some (t, plan) → t ≠ "" → plan ≠ [] →
      (loadSimulationFromURL initialState (some "x")).1.topic = t ∧
      (loadSimulationFromURL initialState (some "x")).1.simulationPlan = plan) ∧
    (∀ t plan, decodeShare "x".data = some (t, plan) → (t = "" ∨ plan = []) →
      (loadSimulationFromURL initialState (some "x")).1 = initialState) ∧
    (decodeShare "x".data = none → (loadSimulationFromURL initialState (some "x")).1 =
      initialState) ∧
    loadSimulationFromURL initialState (some "") = (initialState, false) ∧
    loadSimulationFromURL initialState none = (initialState, false) :=
  C10_url_load initialState "x" (by decide)

end BioSim
